import Mathlib

/-!
Verification of the CryptoHack Discord bot's solve-synchronization and
announcement core (`database.py`, `bot.py`) against its specification.

The SQLite store is embedded as a `DBState` record of row lists; each
`database.py` function becomes a pure Lean function on `DBState`, with SQL
`UNIQUE` violations modelled as the insert-or-reject branch the source
implements via `except aiosqlite.IntegrityError`.  Text comparison of
`solved_date` values follows SQLite's BINARY collation: byte-wise
lexicographic order, embedded here as `strLe` over the code points.
-/

/-! ### Lexicographic order on strings (SQLite BINARY collation on TEXT) -/

def lexLe : List Char → List Char → Bool
  | [], _ => true
  | _ :: _, [] => false
  | a :: as, b :: bs =>
    if a.toNat < b.toNat then true
    else if b.toNat < a.toNat then false
    else lexLe as bs

def strLe (a b : String) : Bool := lexLe a.data b.data

/-! ### Insertion sort, embedding SQL `ORDER BY` -/

def insertLe (le : α → α → Bool) (a : α) : List α → List α
  | [] => [a]
  | b :: bs => if le a b then a :: b :: bs else b :: insertLe le a bs

def sortLe (le : α → α → Bool) : List α → List α
  | [] => []
  | a :: as => insertLe le a (sortLe le as)

/-- Python's `str.lower()` as used on usernames throughout `database.py`:
lowercase every code point. -/
def strLower (s : String) : String := ⟨s.data.map Char.toLower⟩

/-! ### Data model: the four SQLite relations of `database.py` -/

/-- A row of `tracked_users` (guild_id, cryptohack_username, discord_user_id);
`UNIQUE(guild_id, cryptohack_username)`. -/
structure TrackedUser where
  guild_id : Nat
  cryptohack_username : String
  discord_user_id : Option Nat
deriving DecidableEq, Repr

/-- A row of `solved_challenges`;
`UNIQUE(guild_id, cryptohack_username, challenge_name)`,
`first_blood` and `announced` default to FALSE. -/
structure SolvedChallenge where
  guild_id : Nat
  cryptohack_username : String
  challenge_name : String
  challenge_category : String
  challenge_points : Int
  solved_date : String
  first_blood : Bool
  announced : Bool
deriving DecidableEq, Repr

/-- A row of `guild_first_bloods`; `UNIQUE(guild_id, challenge_name)`. -/
structure GuildFirstBlood where
  guild_id : Nat
  challenge_name : String
  first_solver_username : String
deriving DecidableEq, Repr

/-- The whole SQLite database: row lists in rowid (insertion) order;
`guild_settings` maps guild_id to announcement_channel_id. -/
structure DBState where
  tracked_users : List TrackedUser
  solved_challenges : List SolvedChallenge
  guild_first_bloods : List GuildFirstBlood
  guild_settings : List (Nat × Nat)
deriving Repr

def initState : DBState := ⟨[], [], [], []⟩

/-- The `UNIQUE(guild_id, cryptohack_username)` key of `tracked_users`. -/
def trackedKeyMatches (g : Nat) (u : String) (t : TrackedUser) : Bool :=
  t.guild_id == g && t.cryptohack_username == u

/-- The `UNIQUE(guild_id, cryptohack_username, challenge_name)` key of
`solved_challenges`. -/
def solveKeyMatches (g : Nat) (u c : String) (s : SolvedChallenge) : Bool :=
  s.guild_id == g && s.cryptohack_username == u && s.challenge_name == c

/-- The `UNIQUE(guild_id, challenge_name)` key of `guild_first_bloods`. -/
def claimKeyMatches (g : Nat) (c : String) (f : GuildFirstBlood) : Bool :=
  f.guild_id == g && f.challenge_name == c

/-! ### `database.py` operations -/

/-- `database.add_user`: INSERT into `tracked_users` with the username
lowercased; an IntegrityError (duplicate key) yields `False`. -/
def add_user (st : DBState) (guild_id : Nat) (username : String)
    (discord_user_id : Option Nat) : Bool × DBState :=
  if st.tracked_users.any (trackedKeyMatches guild_id (strLower username)) then
    (false, st)
  else
    (true, { st with tracked_users :=
      st.tracked_users ++ [⟨guild_id, (strLower username), discord_user_id⟩] })

/-- `database.remove_user`: DELETE from `tracked_users` by
(guild_id, lowercased username); returns `rowcount > 0`. -/
def remove_user (st : DBState) (guild_id : Nat) (username : String) : Bool × DBState :=
  (st.tracked_users.any (trackedKeyMatches guild_id (strLower username)),
   { st with tracked_users :=
      st.tracked_users.filter (fun t => !trackedKeyMatches guild_id (strLower username) t) })

/-- `database.get_solved_challenges`: the set of challenge names already
recorded for (guild_id, lowercased username). -/
def get_solved_challenges (st : DBState) (guild_id : Nat) (username : String) : List String :=
  (st.solved_challenges.filter (fun s =>
    s.guild_id == guild_id && s.cryptohack_username == (strLower username))).map
      (fun s => s.challenge_name)

/-- `database.add_solved_challenge`: INSERT into `solved_challenges` with the
username lowercased and `announced` left at its FALSE default; an
IntegrityError (duplicate key) yields `False` and leaves the store unchanged. -/
def add_solved_challenge (st : DBState) (guild_id : Nat) (username challenge_name : String)
    (category : String) (points : Int) (solved_date : String) (first_blood : Bool) :
    Bool × DBState :=
  if st.solved_challenges.any (solveKeyMatches guild_id (strLower username) challenge_name) then
    (false, st)
  else
    (true, { st with solved_challenges :=
      st.solved_challenges ++
        [⟨guild_id, (strLower username), challenge_name, category, points, solved_date,
          first_blood, false⟩] })

/-- `database.mark_challenge_announced`: UPDATE `solved_challenges`
SET `announced = TRUE` on the rows matching (guild_id, lowercased username,
challenge_name). -/
def mark_challenge_announced (st : DBState) (guild_id : Nat)
    (username challenge_name : String) : DBState :=
  { st with solved_challenges := st.solved_challenges.map (fun s =>
      if solveKeyMatches guild_id (strLower username) challenge_name s then
        { s with announced := true }
      else s) }

/-- Descending `solved_date` order used by `get_unannounced_solves`
(`ORDER BY solved_date DESC`). -/
def solveDateDesc (a b : SolvedChallenge) : Bool := strLe b.solved_date a.solved_date

/-- The rows of `solved_challenges` for a guild still awaiting announcement. -/
def unannouncedRows (st : DBState) (guild_id : Nat) : List SolvedChallenge :=
  st.solved_challenges.filter (fun s => s.guild_id == guild_id && !s.announced)

/-- `database.get_unannounced_solves`: SELECT the guild's rows with
`announced = FALSE`, `ORDER BY solved_date DESC`. -/
def get_unannounced_solves (st : DBState) (guild_id : Nat) : List SolvedChallenge :=
  sortLe solveDateDesc (unannouncedRows st guild_id)

/-- `database.check_and_set_first_blood`: INSERT into `guild_first_bloods`;
returns `True` iff the insert succeeded (no prior claim for the pair). -/
def check_and_set_first_blood (st : DBState) (guild_id : Nat)
    (challenge_name username : String) : Bool × DBState :=
  if st.guild_first_bloods.any (claimKeyMatches guild_id challenge_name) then
    (false, st)
  else
    (true, { st with guild_first_bloods :=
      st.guild_first_bloods ++ [⟨guild_id, challenge_name, (strLower username)⟩] })

/-- A row of the `get_challenge_solvers` join result. -/
structure SolverRow where
  cryptohack_username : String
  solved_date : String
  first_blood : Bool
  discord_user_id : Option Nat
deriving DecidableEq, Repr

/-- Ascending `solved_date` order used by `get_challenge_solvers`
(`ORDER BY sc.solved_date ASC`). -/
def solverDateAsc (a b : SolverRow) : Bool := strLe a.solved_date b.solved_date

/-- `database.get_challenge_solvers`: `solved_challenges` JOIN `tracked_users`
on (guild_id, cryptohack_username), restricted to the given guild and
challenge, `ORDER BY sc.solved_date ASC`. -/
def get_challenge_solvers (st : DBState) (guild_id : Nat) (challenge_name : String) :
    List SolverRow :=
  sortLe solverDateAsc
    ((st.solved_challenges.filter (fun sc =>
        sc.guild_id == guild_id && sc.challenge_name == challenge_name)).flatMap
      (fun sc => (st.tracked_users.filter (fun tu =>
          tu.guild_id == sc.guild_id && tu.cryptohack_username == sc.cryptohack_username)).map
        (fun tu => ⟨sc.cryptohack_username, sc.solved_date, sc.first_blood,
          tu.discord_user_id⟩)))

/-- `database.set_announcement_channel`: upsert into `guild_settings`. -/
def set_announcement_channel (st : DBState) (guild_id channel_id : Nat) : DBState :=
  if st.guild_settings.any (fun p => p.1 == guild_id) then
    { st with guild_settings := st.guild_settings.map (fun p =>
        if p.1 == guild_id then (guild_id, channel_id) else p) }
  else
    { st with guild_settings := st.guild_settings ++ [(guild_id, channel_id)] }

/-- `database.get_announcement_channel`: lookup in `guild_settings`. -/
def get_announcement_channel (st : DBState) (guild_id : Nat) : Option Nat :=
  (st.guild_settings.find? (fun p => p.1 == guild_id)).map (fun p => p.2)

/-! ### `bot.py` operations

Discord delivery (channel resolution, `generate_solve_image`, `channel.send`)
is external; the embedding keeps the state transitions of the loops and an
event trace.  `Event.attempt` records that the notification for a solve was
attempted (the body of the per-solve `try` block was entered: user fetch,
image rendering and channel send); `Event.marked` records a
`mark_challenge_announced` call for that solve. -/

inductive Event where
  | attempt (username challenge_name : String)
  | marked (username challenge_name : String)
deriving DecidableEq, Repr

/-- `bot._announce_new_solves` lines 148-150: the server rank shown in a
notification is `len(server_solvers)` for the solve's challenge. -/
def server_rank (st : DBState) (guild_id : Nat) (challenge_name : String) : Nat :=
  (get_challenge_solvers st guild_id challenge_name).length

/-- The per-solve loop of `bot._announce_new_solves` when a channel was
resolved: every solve is attempted, and `mark_challenge_announced` runs on
every control path (success, `discord.Forbidden`, and any other exception),
so the state transition does not depend on the delivery outcome. -/
def announceLoop (guild_id : Nat) :
    List SolvedChallenge → DBState → DBState × List Event
  | [], st => (st, [])
  | solve :: rest, st =>
    let st1 := mark_challenge_announced st guild_id
      solve.cryptohack_username solve.challenge_name
    let next := announceLoop guild_id rest st1
    (next.1,
     Event.attempt solve.cryptohack_username solve.challenge_name ::
       Event.marked solve.cryptohack_username solve.challenge_name :: next.2)

/-- `bot._announce_new_solves`: fetch the pending solves; `channel` is the
already-resolved delivery target (configured channel, else the
"cryptohack"-named channel, else the system channel — resolution itself is
external Discord API).  With no target, every pending solve is marked
announced and nothing is attempted; with a target, run the dispatch loop. -/
def announce_new_solves (st : DBState) (guild_id : Nat) (channel : Option Nat) :
    DBState × List Event :=
  let unannounced := get_unannounced_solves st guild_id
  match channel with
  | none =>
    (unannounced.foldl (fun s solve =>
      mark_challenge_announced s guild_id solve.cryptohack_username solve.challenge_name) st,
     [])
  | some _ => announceLoop guild_id unannounced st

/-- One achievement of an upstream snapshot (`cryptohack_api.SolvedChallenge`). -/
structure Achievement where
  name : String
  category : String
  points : Int
  date : String
deriving DecidableEq, Repr

/-- The seeding loop of the `/adduser` command (`bot.add_user` lines 322-338):
for each achievement in the snapshot, claim first blood, record the solve,
and immediately mark it announced. -/
def seedLoop (guild_id : Nat) (username : String) :
    List Achievement → DBState → DBState
  | [], st => st
  | ch :: rest, st =>
    let fb := check_and_set_first_blood st guild_id ch.name username
    let ins := add_solved_challenge fb.2 guild_id username ch.name
      ch.category ch.points ch.date fb.1
    let st3 := mark_challenge_announced ins.2 guild_id username ch.name
    seedLoop guild_id username rest st3

/-- The `/adduser` command (`bot.add_user`), after the upstream profile fetch
succeeded with the given snapshot: insert the tracked user and, if newly
added, seed all snapshot achievements as already-announced.  It dispatches no
solve notifications, hence the empty event trace. -/
def track_user (st : DBState) (guild_id : Nat) (username : String)
    (snapshot : List Achievement) : DBState × List Event :=
  let added := add_user st guild_id username none
  if added.1 then (seedLoop guild_id username snapshot added.2, []) else (added.2, [])

/-- The announcement loop of the `/refresh` command (`bot.refresh` lines
560-586) over the freshly inserted (username, challenge_name) pairs:
`sendOk u c` tells whether image generation and the channel send succeed for
that solve.  On success the solve is marked announced; on failure only an
error message is posted and the solve is NOT marked. -/
def refreshLoop (guild_id : Nat) (sendOk : String → String → Bool) :
    List (String × String) → DBState → DBState × List Event
  | [], st => (st, [])
  | p :: rest, st =>
    if sendOk p.1 p.2 then
      let st1 := mark_challenge_announced st guild_id p.1 p.2
      let next := refreshLoop guild_id sendOk rest st1
      (next.1, Event.attempt p.1 p.2 :: Event.marked p.1 p.2 :: next.2)
    else
      let next := refreshLoop guild_id sendOk rest st
      (next.1, Event.attempt p.1 p.2 :: next.2)

/-! ### The store's write operations as a transition system -/

/-- The write operations `database.py` exposes; every mutation of the store
performed anywhere in `bot.py` is a sequence of these. -/
inductive Op where
  | opAddUser (guild_id : Nat) (username : String) (discord_user_id : Option Nat)
  | opRemoveUser (guild_id : Nat) (username : String)
  | opAddSolvedChallenge (guild_id : Nat) (username challenge_name category : String)
      (points : Int) (solved_date : String) (first_blood : Bool)
  | opMarkChallengeAnnounced (guild_id : Nat) (username challenge_name : String)
  | opCheckAndSetFirstBlood (guild_id : Nat) (challenge_name username : String)
  | opSetAnnouncementChannel (guild_id channel_id : Nat)
deriving DecidableEq, Repr

def applyOp (st : DBState) : Op → DBState
  | .opAddUser g u d => (add_user st g u d).2
  | .opRemoveUser g u => (remove_user st g u).2
  | .opAddSolvedChallenge g u c cat pts date fb =>
      (add_solved_challenge st g u c cat pts date fb).2
  | .opMarkChallengeAnnounced g u c => mark_challenge_announced st g u c
  | .opCheckAndSetFirstBlood g c u => (check_and_set_first_blood st g c u).2
  | .opSetAnnouncementChannel g ch => set_announcement_channel st g ch

def applyOps (st : DBState) (ops : List Op) : DBState := ops.foldl applyOp st

/-! ### State predicates used by the claims -/

/-- A first-blood claim for (guild_id, challenge_name) exists. -/
def hasClaim (st : DBState) (guild_id : Nat) (challenge_name : String) : Bool :=
  st.guild_first_bloods.any (claimKeyMatches guild_id challenge_name)

/-- Number of first-blood claims stored for (guild_id, challenge_name). -/
def claimCount (st : DBState) (guild_id : Nat) (challenge_name : String) : Nat :=
  (st.guild_first_bloods.filter (claimKeyMatches guild_id challenge_name)).length

/-- A recorded solve with this exact key exists. -/
def hasSolve (st : DBState) (guild_id : Nat) (username challenge_name : String) : Bool :=
  st.solved_challenges.any (solveKeyMatches guild_id username challenge_name)

/-- A recorded solve with this exact key exists and is announced. -/
def announcedIn (st : DBState) (guild_id : Nat) (username challenge_name : String) : Bool :=
  st.solved_challenges.any (fun s =>
    solveKeyMatches guild_id username challenge_name s && s.announced)

/-- The recorded solves of one (guild, account). -/
def solvesFor (st : DBState) (guild_id : Nat) (username : String) : List SolvedChallenge :=
  st.solved_challenges.filter (fun s =>
    s.guild_id == guild_id && s.cryptohack_username == username)

/-- All usernames stored in `solved_challenges` are lowercase-normalized;
true of every state the store's own insert path can build, since
`add_solved_challenge` lowercases before inserting. -/
def solvesNormalized (st : DBState) : Bool :=
  st.solved_challenges.all (fun s => strLower s.cryptohack_username == s.cryptohack_username)

/-- The specification's definition of server rank ("the 1-based count of
RecordedSolve rows sharing (server_id, achievement_name) with solved_date
less than or equal to this solve's"), stated from the spec's words for
comparison with the code's `server_rank`. -/
def specServerRank (st : DBState) (guild_id : Nat) (challenge_name solved_date : String) :
    Nat :=
  (st.solved_challenges.filter (fun s =>
    s.guild_id == guild_id && s.challenge_name == challenge_name &&
      strLe s.solved_date solved_date)).length

/-- Concrete store used to exercise the server-rank computation: alice's
2024-01-01 solve of "chal" is pending, bob's later 2024-01-02 solve of the
same challenge is recorded and already announced. -/
def exC2 : DBState :=
  ⟨[⟨1, "alice", none⟩, ⟨1, "bob", none⟩],
   [⟨1, "alice", "chal", "RSA", 10, "2024-01-01", true, false⟩,
    ⟨1, "bob", "chal", "RSA", 10, "2024-01-02", false, true⟩], [], []⟩

/-- Concrete store for the missing-target Deliverer scenario: two pending
solves in guild 1, no configured channel. -/
def exC7 : DBState :=
  ⟨[⟨1, "alice", none⟩],
   [⟨1, "alice", "A", "RSA", 10, "2024-01-01", false, false⟩,
    ⟨1, "alice", "B", "Web", 20, "2024-01-02", false, false⟩], [], []⟩

/-! ### Order and sort lemmas -/

theorem lexLe_total : ∀ a b, lexLe a b = false → lexLe b a = true := by
  intro a
  induction a with
  | nil => intro b h; simp [lexLe] at h
  | cons x xs ih =>
    intro b h
    cases b with
    | nil => simp [lexLe]
    | cons y ys =>
      simp only [lexLe] at h ⊢
      split at h
      · simp at h
      · next h1 =>
        split at h
        · next h2 => simp [h2]
        · next h2 =>
          have hn1 : ¬ y.toNat < x.toNat := h2
          simp [h1, hn1, ih ys h]

theorem lexLe_trans : ∀ a b c, lexLe a b = true → lexLe b c = true → lexLe a c = true := by
  intro a
  induction a with
  | nil => intro b c _ _; simp [lexLe]
  | cons x xs ih =>
    intro b c hab hbc
    cases b with
    | nil => simp [lexLe] at hab
    | cons y ys =>
      cases c with
      | nil => simp [lexLe] at hbc
      | cons z zs =>
        simp only [lexLe] at hab hbc ⊢
        by_cases h1 : x.toNat < y.toNat
        · simp only [if_pos h1] at hab
          by_cases h2 : y.toNat < z.toNat
          · have h3 : x.toNat < z.toNat := by omega
            simp [h3]
          · simp only [if_neg h2] at hbc
            by_cases h2' : z.toNat < y.toNat
            · simp [if_pos h2'] at hbc
            · have h3 : x.toNat < z.toNat := by omega
              simp [h3]
        · simp only [if_neg h1] at hab
          by_cases h1' : y.toNat < x.toNat
          · simp [if_pos h1'] at hab
          · simp only [if_neg h1'] at hab
            by_cases h2 : y.toNat < z.toNat
            · have h3 : x.toNat < z.toNat := by omega
              simp [h3]
            · simp only [if_neg h2] at hbc
              by_cases h2' : z.toNat < y.toNat
              · simp [if_pos h2'] at hbc
              · simp only [if_neg h2'] at hbc
                have hn1 : ¬ x.toNat < z.toNat := by omega
                have hn2 : ¬ z.toNat < x.toNat := by omega
                simp [hn1, hn2, ih ys zs hab hbc]

theorem strLe_total (a b : String) (h : strLe a b = false) : strLe b a = true :=
  lexLe_total a.data b.data h

theorem strLe_trans (a b c : String) (hab : strLe a b = true) (hbc : strLe b c = true) :
    strLe a c = true :=
  lexLe_trans a.data b.data c.data hab hbc

theorem insertLe_perm (le : α → α → Bool) (a : α) :
    ∀ l : List α, (insertLe le a l).Perm (a :: l) := by
  intro l
  induction l with
  | nil => simp [insertLe]
  | cons b bs ih =>
    simp only [insertLe]
    split
    · exact List.Perm.refl _
    · exact (List.Perm.cons b ih).trans (List.Perm.swap a b bs)

theorem sortLe_perm (le : α → α → Bool) :
    ∀ l : List α, (sortLe le l).Perm l := by
  intro l
  induction l with
  | nil => exact List.Perm.refl _
  | cons a as ih =>
    exact (insertLe_perm le a (sortLe le as)).trans (List.Perm.cons a ih)

theorem mem_sortLe (le : α → α → Bool) (l : List α) (x : α) :
    x ∈ sortLe le l ↔ x ∈ l :=
  (sortLe_perm le l).mem_iff

theorem length_sortLe (le : α → α → Bool) (l : List α) :
    (sortLe le l).length = l.length :=
  (sortLe_perm le l).length_eq

theorem pairwise_insertLe (le : α → α → Bool)
    (htot : ∀ a b, le a b = false → le b a = true)
    (htr : ∀ a b c, le a b = true → le b c = true → le a c = true)
    (a : α) :
    ∀ l : List α, l.Pairwise (fun x y => le x y = true) →
      (insertLe le a l).Pairwise (fun x y => le x y = true) := by
  intro l
  induction l with
  | nil => intro _; simp [insertLe]
  | cons b bs ih =>
    intro hp
    rw [List.pairwise_cons] at hp
    simp only [insertLe]
    split
    · next hab =>
      rw [List.pairwise_cons]
      refine ⟨?_, List.pairwise_cons.mpr hp⟩
      intro y hy
      rcases List.mem_cons.mp hy with hyb | hybs
      · exact hyb ▸ hab
      · exact htr a b y hab (hp.1 y hybs)
    · next hab =>
      rw [List.pairwise_cons]
      refine ⟨?_, ih hp.2⟩
      intro y hy
      rcases List.mem_cons.mp ((insertLe_perm le a bs).mem_iff.mp hy) with hya | hybs
      · exact hya ▸ htot a b (by simpa using hab)
      · exact hp.1 y hybs

theorem pairwise_sortLe (le : α → α → Bool)
    (htot : ∀ a b, le a b = false → le b a = true)
    (htr : ∀ a b c, le a b = true → le b c = true → le a c = true) :
    ∀ l : List α, (sortLe le l).Pairwise (fun x y => le x y = true) := by
  intro l
  induction l with
  | nil => simp [sortLe]
  | cons a as ih => exact pairwise_insertLe le htot htr a (sortLe le as) ih

/-! ### Store-level helper lemmas -/

theorem firstBloods_applyOp (st : DBState) (op : Op) :
    ∃ l, (applyOp st op).guild_first_bloods = st.guild_first_bloods ++ l := by
  cases op with
  | opAddUser g u d =>
    show ∃ l, (add_user st g u d).2.guild_first_bloods = st.guild_first_bloods ++ l
    unfold add_user
    split <;> exact ⟨[], by simp⟩
  | opRemoveUser g u =>
    exact ⟨[], by simp [applyOp, remove_user]⟩
  | opAddSolvedChallenge g u c cat pts date fb =>
    show ∃ l, (add_solved_challenge st g u c cat pts date fb).2.guild_first_bloods
      = st.guild_first_bloods ++ l
    unfold add_solved_challenge
    split <;> exact ⟨[], by simp⟩
  | opMarkChallengeAnnounced g u c =>
    exact ⟨[], by simp [applyOp, mark_challenge_announced]⟩
  | opCheckAndSetFirstBlood g c u =>
    show ∃ l, (check_and_set_first_blood st g c u).2.guild_first_bloods
      = st.guild_first_bloods ++ l
    unfold check_and_set_first_blood
    split
    · exact ⟨[], by simp⟩
    · exact ⟨[⟨g, c, strLower u⟩], by simp⟩
  | opSetAnnouncementChannel g ch =>
    show ∃ l, (set_announcement_channel st g ch).guild_first_bloods
      = st.guild_first_bloods ++ l
    unfold set_announcement_channel
    split <;> exact ⟨[], by simp⟩

theorem hasClaim_applyOp (st : DBState) (op : Op) (g : Nat) (c : String)
    (h : hasClaim st g c = true) : hasClaim (applyOp st op) g c = true := by
  obtain ⟨l, hl⟩ := firstBloods_applyOp st op
  unfold hasClaim at h ⊢
  rw [hl, List.any_append, h, Bool.true_or]

theorem hasClaim_applyOps (ops : List Op) (st : DBState) (g : Nat) (c : String)
    (h : hasClaim st g c = true) : hasClaim (applyOps st ops) g c = true := by
  induction ops generalizing st with
  | nil => exact h
  | cons op rest ih => exact ih (applyOp st op) (hasClaim_applyOp st op g c h)

theorem check_and_set_first_blood_fst (st : DBState) (g : Nat) (c u : String) :
    (check_and_set_first_blood st g c u).1 = !(hasClaim st g c) := by
  unfold check_and_set_first_blood hasClaim
  split
  · next h => rw [h]; rfl
  · next h => rw [Bool.not_eq_true] at h; rw [h]; rfl

theorem hasClaim_after_claim (st : DBState) (g : Nat) (c u : String) :
    hasClaim (check_and_set_first_blood st g c u).2 g c = true := by
  unfold check_and_set_first_blood
  split
  · next h => exact h
  · next h =>
    unfold hasClaim
    simp [claimKeyMatches]

theorem claimCount_applyOp (st : DBState) (op : Op) (g : Nat) (c : String)
    (h : claimCount st g c ≤ 1) : claimCount (applyOp st op) g c ≤ 1 := by
  cases op with
  | opCheckAndSetFirstBlood g2 c2 u =>
    show claimCount (check_and_set_first_blood st g2 c2 u).2 g c ≤ 1
    unfold check_and_set_first_blood
    split
    · exact h
    · next hnone =>
      unfold claimCount at h ⊢
      simp only [List.filter_append, List.length_append]
      by_cases hmatch : claimKeyMatches g c ⟨g2, c2, strLower u⟩ = true
      · have hkey : g2 = g ∧ c2 = c := by simpa [claimKeyMatches] using hmatch
        have hzero : st.guild_first_bloods.filter (claimKeyMatches g c) = [] := by
          rw [List.filter_eq_nil_iff]
          intro f hf hpf
          exact hnone (List.any_eq_true.mpr ⟨f, hf, by rw [hkey.1, hkey.2]; exact hpf⟩)
        rw [hzero]
        simp [List.filter_cons, hmatch]
      · rw [Bool.not_eq_true] at hmatch
        simpa [List.filter_cons, hmatch] using h
  | opAddUser g2 u d =>
    show claimCount (add_user st g2 u d).2 g c ≤ 1
    unfold add_user
    split <;> exact h
  | opRemoveUser g2 u => exact h
  | opAddSolvedChallenge g2 u c2 cat pts date fb =>
    show claimCount (add_solved_challenge st g2 u c2 cat pts date fb).2 g c ≤ 1
    unfold add_solved_challenge
    split <;> exact h
  | opMarkChallengeAnnounced g2 u c2 => exact h
  | opSetAnnouncementChannel g2 ch =>
    show claimCount (set_announcement_channel st g2 ch) g c ≤ 1
    unfold set_announcement_channel
    split <;> exact h

theorem claimCount_applyOps (ops : List Op) (st : DBState) (g : Nat) (c : String)
    (h : claimCount st g c ≤ 1) : claimCount (applyOps st ops) g c ≤ 1 := by
  induction ops generalizing st with
  | nil => exact h
  | cons op rest ih => exact ih (applyOp st op) (claimCount_applyOp st op g c h)

/-! ### Claim theorems -/

/-- C5: for an already-recorded solve, re-running the Recorder
(`add_solved_challenge`) with the same (server, account, achievement) key
returns the AlreadyExists outcome (`false`) instead of raising, and leaves
the whole store — every field of the existing row, `first_blood` included —
unchanged. -/
theorem C5_record_already_exists (st : DBState) (guild_id : Nat)
    (username challenge_name category : String) (points : Int) (solved_date : String)
    (first_blood : Bool)
    (h : hasSolve st guild_id (strLower username) challenge_name = true) :
    add_solved_challenge st guild_id username challenge_name category points
      solved_date first_blood = (false, st) := by
  unfold hasSolve at h
  unfold add_solved_challenge
  rw [if_pos h]

theorem C5_record_already_exists_witness :
    hasSolve ⟨[], [⟨1, "alice", "RSA Starter 1", "RSA", 10, "2024-01-01", true, false⟩], [], []⟩
        1 (strLower "Alice") "RSA Starter 1" = true ∧
    add_solved_challenge
        ⟨[], [⟨1, "alice", "RSA Starter 1", "RSA", 10, "2024-01-01", true, false⟩], [], []⟩
        1 "Alice" "RSA Starter 1" "RSA" 10 "2024-01-02" false
      = (false, ⟨[], [⟨1, "alice", "RSA Starter 1", "RSA", 10, "2024-01-01", true, false⟩],
          [], []⟩) :=
  ⟨by decide,
   C5_record_already_exists
     ⟨[], [⟨1, "alice", "RSA Starter 1", "RSA", 10, "2024-01-01", true, false⟩], [], []⟩
     1 "Alice" "RSA Starter 1" "RSA" 10 "2024-01-02" false (by decide)⟩

/-- C4: for every (server, achievement) pair, at most one FirstBloodClaim row
ever exists in any state reachable through the store's operations;
`check_and_set_first_blood` returns true exactly when no claim existed (the
creating call), and after a successful claim, any later call for the pair —
whatever the claimant and whatever operations ran in between — returns false. -/
theorem C4_first_blood_claimed_once (ops ops2 : List Op) (g : Nat) (c u u2 : String) :
    claimCount (applyOps initState ops) g c ≤ 1 ∧
    ((check_and_set_first_blood (applyOps initState ops) g c u).1
      = !(hasClaim (applyOps initState ops) g c)) ∧
    ((check_and_set_first_blood (applyOps initState ops) g c u).1 = true →
      (check_and_set_first_blood
        (applyOps (check_and_set_first_blood (applyOps initState ops) g c u).2 ops2)
        g c u2).1 = false) := by
  refine ⟨claimCount_applyOps ops initState g c (by simp [claimCount, initState]),
    check_and_set_first_blood_fst _ g c u, ?_⟩
  intro _
  rw [check_and_set_first_blood_fst]
  have h2 : hasClaim
      (applyOps (check_and_set_first_blood (applyOps initState ops) g c u).2 ops2) g c
      = true :=
    hasClaim_applyOps ops2 _ g c (hasClaim_after_claim _ g c u)
  rw [h2]
  rfl

theorem C4_first_blood_claimed_once_witness :
    (check_and_set_first_blood (applyOps initState []) 1 "RSA Starter 1" "alice").1 = true ∧
    (check_and_set_first_blood
      (applyOps (check_and_set_first_blood (applyOps initState []) 1 "RSA Starter 1" "alice").2
        [])
      1 "RSA Starter 1" "bob").1 = false :=
  ⟨by decide,
   (C4_first_blood_claimed_once [] [] 1 "RSA Starter 1" "alice" "bob").2.2 (by decide)⟩

theorem solveKeyMatches_set_announced (g : Nat) (u c : String) (s : SolvedChallenge)
    (b : Bool) : solveKeyMatches g u c { s with announced := b } = solveKeyMatches g u c s := by
  simp [solveKeyMatches]

theorem announcedIn_mark (st : DBState) (g2 : Nat) (u2 c2 : String) (g : Nat) (u c : String)
    (h : announcedIn st g u c = true) :
    announcedIn (mark_challenge_announced st g2 u2 c2) g u c = true := by
  unfold announcedIn at h ⊢
  obtain ⟨s, hs, hps⟩ := List.any_eq_true.mp h
  unfold mark_challenge_announced
  refine List.any_eq_true.mpr ⟨_, List.mem_map_of_mem _ hs, ?_⟩
  rw [Bool.and_eq_true] at hps
  split
  · rw [Bool.and_eq_true, solveKeyMatches_set_announced]
    exact ⟨hps.1, rfl⟩
  · rw [Bool.and_eq_true]
    exact hps

theorem announcedIn_applyOp (st : DBState) (op : Op) (g : Nat) (u c : String)
    (h : announcedIn st g u c = true) : announcedIn (applyOp st op) g u c = true := by
  cases op with
  | opAddUser g2 u2 d =>
    show announcedIn (add_user st g2 u2 d).2 g u c = true
    unfold add_user
    split
    · exact h
    · exact h
  | opRemoveUser g2 u2 =>
    show announcedIn (remove_user st g2 u2).2 g u c = true
    exact h
  | opAddSolvedChallenge g2 u2 c2 cat pts date fb =>
    show announcedIn (add_solved_challenge st g2 u2 c2 cat pts date fb).2 g u c = true
    unfold add_solved_challenge
    split
    · exact h
    · unfold announcedIn at h ⊢
      rw [List.any_append, h, Bool.true_or]
  | opMarkChallengeAnnounced g2 u2 c2 =>
    exact announcedIn_mark st g2 u2 c2 g u c h
  | opCheckAndSetFirstBlood g2 c2 u2 =>
    show announcedIn (check_and_set_first_blood st g2 c2 u2).2 g u c = true
    unfold check_and_set_first_blood
    split
    · exact h
    · exact h
  | opSetAnnouncementChannel g2 ch =>
    show announcedIn (set_announcement_channel st g2 ch) g u c = true
    unfold set_announcement_channel
    split
    · exact h
    · exact h

/-- C8: `announced` is monotone — once a recorded solve is announced, no
sequence of store operations (the only writes the program performs) ever
reverts it to unannounced. -/
theorem C8_announced_monotone (ops : List Op) (st : DBState) (g : Nat) (u c : String)
    (h : announcedIn st g u c = true) :
    announcedIn (applyOps st ops) g u c = true := by
  induction ops generalizing st with
  | nil => exact h
  | cons op rest ih => exact ih (applyOp st op) (announcedIn_applyOp st op g u c h)

theorem C8_announced_monotone_witness :
    announcedIn ⟨[], [⟨1, "alice", "RSA Starter 1", "RSA", 10, "2024-01-01", true, true⟩],
        [], []⟩ 1 "alice" "RSA Starter 1" = true ∧
    announcedIn
      (applyOps
        ⟨[], [⟨1, "alice", "RSA Starter 1", "RSA", 10, "2024-01-01", true, true⟩], [], []⟩
        [Op.opRemoveUser 1 "alice", Op.opAddSolvedChallenge 1 "bob" "X" "Web" 20 "2024-02-02"
          false, Op.opMarkChallengeAnnounced 1 "alice" "RSA Starter 1"])
      1 "alice" "RSA Starter 1" = true :=
  ⟨by decide,
   C8_announced_monotone
     [Op.opRemoveUser 1 "alice", Op.opAddSolvedChallenge 1 "bob" "X" "Web" 20 "2024-02-02"
       false, Op.opMarkChallengeAnnounced 1 "alice" "RSA Starter 1"]
     ⟨[], [⟨1, "alice", "RSA Starter 1", "RSA", 10, "2024-01-01", true, true⟩], [], []⟩
     1 "alice" "RSA Starter 1" (by decide)⟩

/-- C1 (amended): the unannounced-solves query returns the pending solves
sorted by `solved_date` DESCENDING (newest first, `ORDER BY solved_date
DESC`), so dispatch attempts run newest-first, not oldest-first. -/
theorem C1_unannounced_sorted_desc (st : DBState) (guild_id : Nat) :
    (get_unannounced_solves st guild_id).Pairwise
      (fun a b => strLe b.solved_date a.solved_date = true) :=
  pairwise_sortLe solveDateDesc
    (fun a b h => strLe_total b.solved_date a.solved_date h)
    (fun a b c hab hbc => strLe_trans c.solved_date b.solved_date a.solved_date hbc hab)
    (unannouncedRows st guild_id)

/-- C1 counterexample: with two pending solves dated 2024-01-01 and
2024-01-02, the query returns the 2024-01-02 solve FIRST, so the returned
sequence is not sorted by `solved_date` ascending, contradicting the claim. -/
theorem C1_not_sorted_asc_counterexample :
    get_unannounced_solves
        ⟨[], [⟨1, "alice", "A", "RSA", 10, "2024-01-01", false, false⟩,
              ⟨1, "bob", "B", "Web", 20, "2024-01-02", false, false⟩], [], []⟩ 1
      = [⟨1, "bob", "B", "Web", 20, "2024-01-02", false, false⟩,
         ⟨1, "alice", "A", "RSA", 10, "2024-01-01", false, false⟩] ∧
    ¬ ((get_unannounced_solves
        ⟨[], [⟨1, "alice", "A", "RSA", 10, "2024-01-01", false, false⟩,
              ⟨1, "bob", "B", "Web", 20, "2024-01-02", false, false⟩], [], []⟩ 1).Pairwise
      (fun a b => strLe a.solved_date b.solved_date = true)) := by
  constructor
  · decide
  · decide

theorem sum_ite_length_filter (p : α → Bool) (l : List α) :
    (l.map (fun a => if p a then 1 else 0)).sum = (l.filter p).length := by
  induction l with
  | nil => rfl
  | cons x xs ih =>
    by_cases h : p x = true
    · simp [List.filter_cons, h, ih, Nat.add_comm]
    · rw [Bool.not_eq_true] at h
      simp [List.filter_cons, h, ih]

theorem length_filter_nodup_key (l : List TrackedUser) (a : Nat) (b : String)
    (hnd : (l.map (fun t => (t.guild_id, t.cryptohack_username))).Nodup) :
    (l.filter (fun t => t.guild_id == a && t.cryptohack_username == b)).length
      = if l.any (fun t => t.guild_id == a && t.cryptohack_username == b) then 1 else 0 := by
  induction l with
  | nil => rfl
  | cons t ts ih =>
    rw [List.map_cons, List.nodup_cons] at hnd
    by_cases h : (t.guild_id == a && t.cryptohack_username == b) = true
    · have hkey : t.guild_id = a ∧ t.cryptohack_username = b := by simpa using h
      have htail : ts.filter (fun t2 => t2.guild_id == a && t2.cryptohack_username == b)
          = [] := by
        rw [List.filter_eq_nil_iff]
        intro t2 ht2 hp
        have hk2 : t2.guild_id = a ∧ t2.cryptohack_username = b := by simpa using hp
        exact hnd.1 (List.mem_map.mpr ⟨t2, ht2, by rw [hk2.1, hk2.2, hkey.1, hkey.2]⟩)
      simp [List.filter_cons, List.any_cons, h, htail]
    · rw [Bool.not_eq_true] at h
      simp [List.filter_cons, List.any_cons, h, ih hnd.2]

/-- C2 (amended): the `server_rank` shown in the Deliverer's notification is
`len(server_solvers)`: the number of recorded solves of that challenge in the
server whose account is currently tracked — the solver count at delivery
time, irrespective of `solved_date`, not the 1-based count of rows with
`solved_date` up to the announced solve's date.  (Unique tracked keys is the
store's `UNIQUE(guild_id, cryptohack_username)` constraint.) -/
theorem C2_server_rank_counts_tracked_solvers (st : DBState) (guild_id : Nat)
    (challenge_name : String)
    (hnd : (st.tracked_users.map (fun t => (t.guild_id, t.cryptohack_username))).Nodup) :
    server_rank st guild_id challenge_name
      = ((st.solved_challenges.filter (fun sc =>
            sc.guild_id == guild_id && sc.challenge_name == challenge_name)).filter
          (fun sc => st.tracked_users.any (fun t =>
            t.guild_id == sc.guild_id &&
              t.cryptohack_username == sc.cryptohack_username))).length := by
  unfold server_rank get_challenge_solvers
  rw [length_sortLe, List.length_flatMap]
  generalize (st.solved_challenges.filter fun sc =>
    sc.guild_id == guild_id && sc.challenge_name == challenge_name) = L
  induction L with
  | nil => rfl
  | cons sc rest ih =>
    rw [List.map_cons, List.sum_cons, List.filter_cons]
    simp only [Function.comp]
    rw [List.length_map,
      length_filter_nodup_key st.tracked_users sc.guild_id sc.cryptohack_username hnd]
    by_cases h : st.tracked_users.any (fun t =>
        t.guild_id == sc.guild_id && t.cryptohack_username == sc.cryptohack_username) = true
    · simp [h, ih, Nat.add_comm]
    · rw [Bool.not_eq_true] at h
      simp [h, ih]

theorem C2_server_rank_counts_tracked_solvers_witness :
    ((exC2.tracked_users.map (fun t => (t.guild_id, t.cryptohack_username))).Nodup) ∧
    server_rank exC2 1 "chal"
      = ((exC2.solved_challenges.filter (fun sc =>
            sc.guild_id == 1 && sc.challenge_name == "chal")).filter
          (fun sc => exC2.tracked_users.any (fun t =>
            t.guild_id == sc.guild_id &&
              t.cryptohack_username == sc.cryptohack_username))).length :=
  ⟨by decide, C2_server_rank_counts_tracked_solvers exC2 1 "chal" (by decide)⟩

/-- C2 counterexample: with alice's 2024-01-01 solve of "chal" pending and
bob's later 2024-01-02 solve of the same challenge already recorded, the
rank the code computes when announcing alice's solve is 2 (all tracked
solvers of "chal"), while the spec's date-bounded count at alice's
`solved_date` is 1 — the claimed equality is false. -/
theorem C2_server_rank_counterexample :
    get_unannounced_solves exC2 1
      = [⟨1, "alice", "chal", "RSA", 10, "2024-01-01", true, false⟩] ∧
    server_rank exC2 1 "chal" = 2 ∧
    specServerRank exC2 1 "chal" "2024-01-01" = 1 := by
  refine ⟨by decide, by decide, by decide⟩

theorem foldl_mark_no_unannounced (guild_id : Nat) :
    ∀ (L : List SolvedChallenge) (st : DBState),
      (∀ row ∈ st.solved_challenges, row.guild_id = guild_id → row.announced = false →
        ∃ sol ∈ L, solveKeyMatches guild_id (strLower sol.cryptohack_username)
          sol.challenge_name row = true) →
      unannouncedRows
        (L.foldl (fun s sol =>
          mark_challenge_announced s guild_id sol.cryptohack_username sol.challenge_name) st)
        guild_id = [] := by
  intro L
  induction L with
  | nil =>
    intro st h
    rw [List.foldl_nil, unannouncedRows, List.filter_eq_nil_iff]
    intro row hrow hp
    have h1 : row.guild_id = guild_id ∧ row.announced = false := by simpa using hp
    obtain ⟨sol, hsol, _⟩ := h row hrow h1.1 h1.2
    exact absurd hsol (List.not_mem_nil sol)
  | cons sol rest ih =>
    intro st h
    rw [List.foldl_cons]
    apply ih
    intro row2 hrow2 hg hann
    obtain ⟨row, hrow, heq⟩ := List.mem_map.mp hrow2
    by_cases hc : solveKeyMatches guild_id (strLower sol.cryptohack_username)
        sol.challenge_name row = true
    · rw [if_pos hc] at heq
      rw [← heq] at hann
      simp at hann
    · rw [Bool.not_eq_true] at hc
      rw [if_neg (by simp [hc])] at heq
      subst heq
      obtain ⟨sol2, hsol2, hkey⟩ := h row hrow hg hann
      rcases List.mem_cons.mp hsol2 with h2 | h2
      · subst h2
        rw [hc] at hkey
        exact absurd hkey (by simp)
      · exact ⟨sol2, h2, hkey⟩

/-- C7: when the Deliverer resolves no delivery target for a guild, it marks
every pending solve announced (no unannounced rows survive) and performs zero
dispatch calls (the event trace is empty).  The lowercase-normalization
hypothesis is the store's own invariant: `add_solved_challenge` lowercases
every username it inserts. -/
theorem C7_no_target_marks_all_without_dispatch (st : DBState) (guild_id : Nat)
    (hnorm : solvesNormalized st = true) :
    (announce_new_solves st guild_id none).2 = [] ∧
    unannouncedRows (announce_new_solves st guild_id none).1 guild_id = [] := by
  refine ⟨rfl, ?_⟩
  show unannouncedRows
    ((get_unannounced_solves st guild_id).foldl (fun s sol =>
      mark_challenge_announced s guild_id sol.cryptohack_username sol.challenge_name) st)
    guild_id = []
  apply foldl_mark_no_unannounced
  intro row hrow hg hann
  refine ⟨row, ?_, ?_⟩
  · rw [get_unannounced_solves, mem_sortLe, unannouncedRows, List.mem_filter]
    exact ⟨hrow, by simp [hg, hann]⟩
  · have hn : strLower row.cryptohack_username = row.cryptohack_username := by
      have h2 := List.all_eq_true.mp hnorm row hrow
      simpa using h2
    simp [solveKeyMatches, hn, hg]

theorem C7_no_target_marks_all_without_dispatch_witness :
    solvesNormalized exC7 = true ∧
    (announce_new_solves exC7 1 none).2 = [] ∧
    unannouncedRows (announce_new_solves exC7 1 none).1 1 = [] :=
  ⟨by decide, (C7_no_target_marks_all_without_dispatch exC7 1 (by decide)).1,
   (C7_no_target_marks_all_without_dispatch exC7 1 (by decide)).2⟩

/-- C10: `remove_user` deletes only the matching `tracked_users` row — the
`solved_challenges`, `guild_first_bloods` and `guild_settings` relations are
untouched — yet afterwards the solvers listing never shows the untracked
account, because `get_challenge_solvers` inner-joins `solved_challenges` with
`tracked_users`. -/
theorem C10_remove_user_frame (st : DBState) (guild_id : Nat) (username : String) :
    (remove_user st guild_id username).2.solved_challenges = st.solved_challenges ∧
    (remove_user st guild_id username).2.guild_first_bloods = st.guild_first_bloods ∧
    (remove_user st guild_id username).2.guild_settings = st.guild_settings ∧
    (remove_user st guild_id username).2.tracked_users
      = st.tracked_users.filter (fun t => !trackedKeyMatches guild_id (strLower username) t) ∧
    ∀ challenge_name : String,
      ((get_challenge_solvers (remove_user st guild_id username).2 guild_id
          challenge_name).all
        (fun r => r.cryptohack_username != strLower username)) = true := by
  refine ⟨rfl, rfl, rfl, rfl, ?_⟩
  intro c
  rw [List.all_eq_true]
  intro r hr
  rw [get_challenge_solvers, mem_sortLe] at hr
  obtain ⟨sc, hsc, hr2⟩ := List.mem_flatMap.mp hr
  obtain ⟨tu, htu, heq⟩ := List.mem_map.mp hr2
  rw [List.mem_filter] at htu
  have htu1 := htu.1
  have htu2 := htu.2
  have hdef : (remove_user st guild_id username).2.tracked_users
      = st.tracked_users.filter (fun t => !trackedKeyMatches guild_id (strLower username) t) :=
    rfl
  rw [hdef, List.mem_filter] at htu1
  have hsurv := htu1.2
  rw [Bool.not_eq_eq_eq_not, Bool.not_true] at hsurv
  rw [List.mem_filter] at hsc
  have hscg : sc.guild_id = guild_id := by
    have h2 := hsc.2
    simp only [Bool.and_eq_true, beq_iff_eq] at h2
    exact h2.1
  have hjoin : tu.guild_id = sc.guild_id ∧ tu.cryptohack_username = sc.cryptohack_username := by
    simpa using htu2
  have hne : tu.cryptohack_username ≠ strLower username := by
    intro habs
    have : trackedKeyMatches guild_id (strLower username) tu = true := by
      simp [trackedKeyMatches, hjoin.1, hscg, habs]
    rw [this] at hsurv
    exact absurd hsurv (by simp)
  have hrname : r.cryptohack_username = sc.cryptohack_username := by
    rw [← heq]
  simp [bne, hrname, ← hjoin.2, hne]

theorem announcedIn_mark_other (st : DBState) (g : Nat) (u2 c2 u c : String)
    (hne : ¬(strLower u2 = u ∧ c2 = c)) :
    announcedIn (mark_challenge_announced st g u2 c2) g u c = announcedIn st g u c := by
  unfold announcedIn mark_challenge_announced
  rw [List.any_map]
  apply congrArg
  funext s
  show (solveKeyMatches g u c
        (if solveKeyMatches g (strLower u2) c2 s then { s with announced := true } else s)
      && (if solveKeyMatches g (strLower u2) c2 s then { s with announced := true }
          else s).announced)
    = (solveKeyMatches g u c s && s.announced)
  by_cases hmark : solveKeyMatches g (strLower u2) c2 s = true
  · rw [if_pos hmark, solveKeyMatches_set_announced]
    have hkey : solveKeyMatches g u c s = false := by
      by_contra hk
      rw [Bool.not_eq_false] at hk
      apply hne
      simp only [solveKeyMatches, Bool.and_eq_true, beq_iff_eq] at hmark hk
      refine ⟨?_, ?_⟩
      · rw [← hmark.1.2]
        exact hk.1.2
      · rw [← hmark.2]
        exact hk.2
    rw [hkey]
    rfl
  · rw [Bool.not_eq_true] at hmark
    rw [if_neg (by simp [hmark])]

theorem announceLoop_fst (guild_id : Nat) :
    ∀ (L : List SolvedChallenge) (st : DBState),
      (announceLoop guild_id L st).1
        = L.foldl (fun s sol =>
            mark_challenge_announced s guild_id sol.cryptohack_username sol.challenge_name)
          st := by
  intro L
  induction L with
  | nil => intro st; rfl
  | cons sol rest ih =>
    intro st
    rw [List.foldl_cons]
    exact ih (mark_challenge_announced st guild_id sol.cryptohack_username sol.challenge_name)

/-- C9: in the `/refresh` command's announcement loop, a solve is marked
announced only after its image was generated and sent successfully: when the
send fails for a solve's key (and for every occurrence of that key in the
batch), that solve's announced flag is exactly what it was before — in
particular still false — so the background Deliverer will pick it up later.
By contrast, the background Deliverer with a resolved channel leaves no
pending solve unannounced, marking solves on any failure. -/
theorem C9_refresh_fail_keeps_unannounced (st : DBState) (guild_id ch : Nat)
    (sendOk : String → String → Bool) (solves : List (String × String))
    (username challenge_name : String)
    (hfail : ∀ p ∈ solves,
      (strLower p.1 = strLower username ∧ p.2 = challenge_name) → sendOk p.1 p.2 = false)
    (hnorm : solvesNormalized st = true) :
    announcedIn (refreshLoop guild_id sendOk solves st).1 guild_id
        (strLower username) challenge_name
      = announcedIn st guild_id (strLower username) challenge_name ∧
    unannouncedRows (announce_new_solves st guild_id (some ch)).1 guild_id = [] := by
  constructor
  · clear hnorm
    induction solves generalizing st with
    | nil => rfl
    | cons p rest ih =>
      by_cases hs : sendOk p.1 p.2 = true
      · have hne : ¬(strLower p.1 = strLower username ∧ p.2 = challenge_name) := by
          intro habs
          rw [hfail p (List.mem_cons_self p rest) habs] at hs
          exact absurd hs (by simp)
        have hstep : (refreshLoop guild_id sendOk (p :: rest) st).1
            = (refreshLoop guild_id sendOk rest
                (mark_challenge_announced st guild_id p.1 p.2)).1 := by
          rw [refreshLoop, if_pos hs]
        rw [hstep,
          ih (mark_challenge_announced st guild_id p.1 p.2)
            (fun q hq => hfail q (List.mem_cons_of_mem p hq)),
          announcedIn_mark_other st guild_id p.1 p.2 (strLower username) challenge_name hne]
      · rw [Bool.not_eq_true] at hs
        have hstep : (refreshLoop guild_id sendOk (p :: rest) st).1
            = (refreshLoop guild_id sendOk rest st).1 := by
          rw [refreshLoop, if_neg (by simp [hs])]
        rw [hstep, ih st (fun q hq => hfail q (List.mem_cons_of_mem p hq))]
  · show unannouncedRows (announceLoop guild_id (get_unannounced_solves st guild_id) st).1
      guild_id = []
    rw [announceLoop_fst]
    apply foldl_mark_no_unannounced
    intro row hrow hg hann
    refine ⟨row, ?_, ?_⟩
    · rw [get_unannounced_solves, mem_sortLe, unannouncedRows, List.mem_filter]
      exact ⟨hrow, by simp [hg, hann]⟩
    · have hn : strLower row.cryptohack_username = row.cryptohack_username := by
        have h2 := List.all_eq_true.mp hnorm row hrow
        simpa using h2
      simp [solveKeyMatches, hn, hg]

theorem C9_refresh_fail_keeps_unannounced_witness :
    announcedIn
        (refreshLoop 1 (fun _ _ => false) [("alice", "chal")]
          ⟨[⟨1, "alice", none⟩],
           [⟨1, "alice", "chal", "RSA", 10, "2024-01-01", true, false⟩], [], []⟩).1
        1 (strLower "alice") "chal" = false ∧
    unannouncedRows
      (announce_new_solves
        ⟨[⟨1, "alice", none⟩],
         [⟨1, "alice", "chal", "RSA", 10, "2024-01-01", true, false⟩], [], []⟩ 1 (some 5)).1
      1 = [] := by
  have h := C9_refresh_fail_keeps_unannounced
    ⟨[⟨1, "alice", none⟩], [⟨1, "alice", "chal", "RSA", 10, "2024-01-01", true, false⟩],
      [], []⟩
    1 5 (fun _ _ => false) [("alice", "chal")] "alice" "chal"
    (by intro p _ _; rfl) (by decide)
  refine ⟨?_, h.2⟩
  rw [h.1]
  decide

theorem solved_check_first_blood (st : DBState) (g : Nat) (c u : String) :
    (check_and_set_first_blood st g c u).2.solved_challenges = st.solved_challenges := by
  unfold check_and_set_first_blood
  split <;> rfl

theorem hasSolve_check_first_blood (st : DBState) (g2 : Nat) (c2 u2 : String)
    (g : Nat) (u c : String) :
    hasSolve (check_and_set_first_blood st g2 c2 u2).2 g u c = hasSolve st g u c := by
  unfold hasSolve
  rw [solved_check_first_blood]

theorem solvesFor_check_first_blood (st : DBState) (g2 : Nat) (c2 u2 : String)
    (g : Nat) (u : String) :
    solvesFor (check_and_set_first_blood st g2 c2 u2).2 g u = solvesFor st g u := by
  unfold solvesFor
  rw [solved_check_first_blood]

theorem solved_add_new (st : DBState) (g : Nat) (u c cat : String) (pts : Int)
    (date : String) (fb : Bool) (h : hasSolve st g (strLower u) c = false) :
    (add_solved_challenge st g u c cat pts date fb).2.solved_challenges
      = st.solved_challenges ++ [⟨g, strLower u, c, cat, pts, date, fb, false⟩] := by
  unfold hasSolve at h
  unfold add_solved_challenge
  rw [if_neg (by simp [h])]

theorem hasSolve_mark (st : DBState) (g2 : Nat) (u2 c2 : String) (g : Nat) (u c : String) :
    hasSolve (mark_challenge_announced st g2 u2 c2) g u c = hasSolve st g u c := by
  unfold hasSolve mark_challenge_announced
  rw [List.any_map]
  apply congrArg
  funext s
  show solveKeyMatches g u c
      (if solveKeyMatches g2 (strLower u2) c2 s then { s with announced := true } else s)
    = solveKeyMatches g u c s
  split
  · rw [solveKeyMatches_set_announced]
  · rfl

theorem solvesFor_mark (st : DBState) (g2 : Nat) (u2 c2 : String) (g : Nat) (u : String) :
    solvesFor (mark_challenge_announced st g2 u2 c2) g u
      = (solvesFor st g u).map (fun s =>
          if solveKeyMatches g2 (strLower u2) c2 s then { s with announced := true }
          else s) := by
  unfold solvesFor mark_challenge_announced
  rw [List.filter_map]
  congr 1
  apply List.filter_congr
  intro s _
  show ((if solveKeyMatches g2 (strLower u2) c2 s then { s with announced := true }
        else s).guild_id == g
      && (if solveKeyMatches g2 (strLower u2) c2 s then { s with announced := true }
        else s).cryptohack_username == u)
    = (s.guild_id == g && s.cryptohack_username == u)
  split <;> rfl

theorem hasSolve_false_of_solvesFor_nil (st : DBState) (g : Nat) (u c : String)
    (h : solvesFor st g u = []) : hasSolve st g u c = false := by
  rw [hasSolve, List.any_eq_false]
  intro s hs hp
  have hmem : s ∈ solvesFor st g u := by
    rw [solvesFor, List.mem_filter]
    refine ⟨hs, ?_⟩
    simp only [solveKeyMatches, Bool.and_eq_true, beq_iff_eq] at hp
    simp [hp.1.1, hp.1.2]
  rw [h] at hmem
  exact absurd hmem (List.not_mem_nil s)

theorem hasSolve_eq_solvesFor_any (st : DBState) (g : Nat) (u c : String) :
    hasSolve st g u c = (solvesFor st g u).any (fun s => s.challenge_name == c) := by
  rw [hasSolve, solvesFor, List.any_filter]
  rfl

theorem seedStep_solvesFor (st : DBState) (guild_id : Nat) (username : String)
    (a : Achievement)
    (hfresh_st : hasSolve st guild_id (strLower username) a.name = false) :
    solvesFor (seedLoop guild_id username [a] st) guild_id (strLower username)
      = solvesFor st guild_id (strLower username)
        ++ [⟨guild_id, strLower username, a.name, a.category, a.points, a.date,
            (check_and_set_first_blood st guild_id a.name username).1, true⟩] := by
  have hfresh1 : hasSolve (check_and_set_first_blood st guild_id a.name username).2
      guild_id (strLower username) a.name = false := by
    rw [hasSolve_check_first_blood]
    exact hfresh_st
  have hstep : seedLoop guild_id username [a] st
      = mark_challenge_announced
          (add_solved_challenge (check_and_set_first_blood st guild_id a.name username).2
            guild_id username a.name a.category a.points a.date
            (check_and_set_first_blood st guild_id a.name username).1).2
          guild_id username a.name := rfl
  rw [hstep, solvesFor_mark]
  have hsf2 : solvesFor (add_solved_challenge
        (check_and_set_first_blood st guild_id a.name username).2
        guild_id username a.name a.category a.points a.date
        (check_and_set_first_blood st guild_id a.name username).1).2
      guild_id (strLower username)
    = solvesFor st guild_id (strLower username)
        ++ [⟨guild_id, strLower username, a.name, a.category, a.points, a.date,
            (check_and_set_first_blood st guild_id a.name username).1, false⟩] := by
    rw [solvesFor,
      solved_add_new _ guild_id username a.name a.category a.points a.date _ hfresh1,
      List.filter_append]
    rw [show (check_and_set_first_blood st guild_id a.name username).2.solved_challenges.filter
          (fun s => s.guild_id == guild_id && s.cryptohack_username == strLower username)
        = solvesFor (check_and_set_first_blood st guild_id a.name username).2 guild_id
            (strLower username) from rfl]
    rw [solvesFor_check_first_blood]
    congr 1
    rw [List.filter_cons, if_pos (by simp), List.filter_nil]
  rw [hsf2, List.map_append]
  have hmap1 : (solvesFor st guild_id (strLower username)).map
      (fun s => if solveKeyMatches guild_id (strLower username) a.name s
        then { s with announced := true } else s)
    = solvesFor st guild_id (strLower username) := by
    have hpt : ∀ s ∈ solvesFor st guild_id (strLower username),
        (if solveKeyMatches guild_id (strLower username) a.name s
          then { s with announced := true } else s) = s := by
      intro s hs
      rw [if_neg]
      intro hk
      rw [solvesFor, List.mem_filter] at hs
      have habs : hasSolve st guild_id (strLower username) a.name = true := by
        rw [hasSolve]
        exact List.any_eq_true.mpr ⟨s, hs.1, hk⟩
      rw [habs] at hfresh_st
      exact absurd hfresh_st (by simp)
    rw [List.map_congr_left hpt, List.map_id']
  rw [hmap1]
  congr 1
  rw [List.map_cons, List.map_nil, if_pos (by simp [solveKeyMatches])]

theorem seedLoop_spec (guild_id : Nat) (username : String) :
    ∀ (snapshot : List Achievement) (st : DBState),
      (∀ a ∈ snapshot, hasSolve st guild_id (strLower username) a.name = false) →
      (snapshot.map Achievement.name).Nodup →
      (solvesFor st guild_id (strLower username)).all (fun s => s.announced) = true →
      (solvesFor (seedLoop guild_id username snapshot st) guild_id
          (strLower username)).length
        = (solvesFor st guild_id (strLower username)).length + snapshot.length ∧
      (solvesFor (seedLoop guild_id username snapshot st) guild_id
          (strLower username)).all (fun s => s.announced) = true := by
  intro snapshot
  induction snapshot with
  | nil =>
    intro st _ _ h3
    exact ⟨rfl, h3⟩
  | cons a rest ih =>
    intro st h1 h2 h3
    have hassoc : seedLoop guild_id username (a :: rest) st
        = seedLoop guild_id username rest (seedLoop guild_id username [a] st) := rfl
    have hfresh_a : hasSolve st guild_id (strLower username) a.name = false :=
      h1 a (List.mem_cons_self a rest)
    have hstep := seedStep_solvesFor st guild_id username a hfresh_a
    have hnotrest : a.name ∉ rest.map Achievement.name := (List.nodup_cons.mp h2).1
    have h1' : ∀ a2 ∈ rest,
        hasSolve (seedLoop guild_id username [a] st) guild_id
          (strLower username) a2.name = false := by
      intro a2 ha2
      rw [hasSolve_eq_solvesFor_any, hstep, List.any_append]
      have hl : (solvesFor st guild_id (strLower username)).any
          (fun s => s.challenge_name == a2.name) = false := by
        rw [← hasSolve_eq_solvesFor_any]
        exact h1 a2 (List.mem_cons_of_mem a ha2)
      have hr : a.name ≠ a2.name := by
        intro habs
        exact hnotrest (habs ▸ List.mem_map_of_mem Achievement.name ha2)
      rw [hl]
      simp [hr]
    have h3' : (solvesFor (seedLoop guild_id username [a] st) guild_id
        (strLower username)).all (fun s => s.announced) = true := by
      rw [hstep, List.all_append, h3]
      simp
    obtain ⟨hlen, hall⟩ := ih (seedLoop guild_id username [a] st) h1'
      (List.nodup_cons.mp h2).2 h3'
    rw [hassoc]
    refine ⟨?_, hall⟩
    rw [hlen, hstep, List.length_append]
    simp only [List.length_cons, List.length_nil]
    omega

/-- C6: tracking a new account (no tracked row, no recorded solves for it)
whose upstream snapshot has N achievements records exactly N RecordedSolve
rows for that (server, account), all with `announced = true`, and dispatches
zero notifications (empty event trace). -/
theorem C6_seeding_all_announced_no_dispatch (st : DBState) (guild_id : Nat)
    (username : String) (snapshot : List Achievement)
    (huser : st.tracked_users.any (trackedKeyMatches guild_id (strLower username)) = false)
    (hfresh : solvesFor st guild_id (strLower username) = [])
    (hnd : (snapshot.map Achievement.name).Nodup) :
    (solvesFor (track_user st guild_id username snapshot).1 guild_id
        (strLower username)).length = snapshot.length ∧
    (solvesFor (track_user st guild_id username snapshot).1 guild_id
        (strLower username)).all (fun s => s.announced) = true ∧
    (track_user st guild_id username snapshot).2 = [] := by
  have hadd : add_user st guild_id username none
      = (true, { st with tracked_users :=
          st.tracked_users ++ [⟨guild_id, strLower username, none⟩] }) := by
    unfold add_user
    rw [if_neg (by simp [huser])]
  have htrack : track_user st guild_id username snapshot
      = (seedLoop guild_id username snapshot
          { st with tracked_users :=
            st.tracked_users ++ [⟨guild_id, strLower username, none⟩] }, []) := by
    unfold track_user
    rw [hadd]
    rfl
  rw [htrack]
  have hsf : solvesFor
      { st with tracked_users := st.tracked_users ++ [⟨guild_id, strLower username, none⟩] }
      guild_id (strLower username) = [] := hfresh
  have h1 : ∀ a ∈ snapshot, hasSolve
      { st with tracked_users := st.tracked_users ++ [⟨guild_id, strLower username, none⟩] }
      guild_id (strLower username) a.name = false := by
    intro a _
    exact hasSolve_false_of_solvesFor_nil _ guild_id (strLower username) a.name hsf
  obtain ⟨hlen, hall⟩ := seedLoop_spec guild_id username snapshot
    { st with tracked_users := st.tracked_users ++ [⟨guild_id, strLower username, none⟩] }
    h1 hnd (by rw [hsf]; rfl)
  refine ⟨?_, hall, rfl⟩
  rw [hlen, hsf]
  simp

theorem C6_seeding_all_announced_no_dispatch_witness :
    (solvesFor (track_user initState 1 "Alice"
        [⟨"A", "RSA", 10, "2024-01-01"⟩, ⟨"B", "Web", 20, "2024-01-02"⟩]).1 1
      (strLower "Alice")).length = 2 ∧
    (solvesFor (track_user initState 1 "Alice"
        [⟨"A", "RSA", 10, "2024-01-01"⟩, ⟨"B", "Web", 20, "2024-01-02"⟩]).1 1
      (strLower "Alice")).all (fun s => s.announced) = true ∧
    (track_user initState 1 "Alice"
      [⟨"A", "RSA", 10, "2024-01-01"⟩, ⟨"B", "Web", 20, "2024-01-02"⟩]).2 = [] :=
  C6_seeding_all_announced_no_dispatch initState 1 "Alice"
    [⟨"A", "RSA", 10, "2024-01-01"⟩, ⟨"B", "Web", 20, "2024-01-02"⟩]
    (by decide) (by decide) (by decide)

theorem announceLoop_marked_has_attempt (guild_id : Nat) :
    ∀ (L : List SolvedChallenge) (st : DBState) (u c : String),
      Event.marked u c ∈ (announceLoop guild_id L st).2 →
      Event.attempt u c ∈ (announceLoop guild_id L st).2 := by
  intro L
  induction L with
  | nil =>
    intro st u c h
    simp [announceLoop] at h
  | cons sol rest ih =>
    intro st u c h
    have hsh : (announceLoop guild_id (sol :: rest) st).2
        = Event.attempt sol.cryptohack_username sol.challenge_name ::
            Event.marked sol.cryptohack_username sol.challenge_name ::
            (announceLoop guild_id rest
              (mark_challenge_announced st guild_id sol.cryptohack_username
                sol.challenge_name)).2 := rfl
    rw [hsh] at h ⊢
    rcases List.mem_cons.mp h with h1 | h2
    · exact absurd h1 (by simp)
    · rcases List.mem_cons.mp h2 with h3 | h4
      · have : u = sol.cryptohack_username ∧ c = sol.challenge_name := by
          injection h3 with e1 e2
          exact ⟨e1, e2⟩
        rw [this.1, this.2]
        exact List.mem_cons_self _ _
      · exact List.mem_cons_of_mem _ (List.mem_cons_of_mem _ (ih _ u c h4))

/-- C3 (amended): in the Deliverer's dispatch loop — when a delivery target
was resolved — every solve marked announced has had a notification attempt
(success or failure) in the same run; however, `announced = true` does NOT in
general imply a dispatch attempt: both the missing-target path of the
Deliverer and the seeding path of the tracking command mark solves announced
while dispatching nothing. -/
theorem C3_marked_implies_attempt_in_dispatch_loop (st : DBState) (guild_id ch : Nat)
    (u c : String) :
    (Event.marked u c ∈ (announce_new_solves st guild_id (some ch)).2 →
      Event.attempt u c ∈ (announce_new_solves st guild_id (some ch)).2) ∧
    (announce_new_solves st guild_id none).2 = [] ∧
    (∀ username : String, ∀ snapshot : List Achievement,
      (track_user st guild_id username snapshot).2 = []) := by
  refine ⟨?_, rfl, ?_⟩
  · intro h
    exact announceLoop_marked_has_attempt guild_id (get_unannounced_solves st guild_id)
      st u c h
  · intro username snapshot
    show (if (add_user st guild_id username none).1 = true then
        (seedLoop guild_id username snapshot (add_user st guild_id username none).2, [])
      else ((add_user st guild_id username none).2, [])).2 = []
    split
    · rfl
    · rfl

theorem C3_marked_implies_attempt_in_dispatch_loop_witness :
    Event.marked "alice" "chal" ∈
      (announce_new_solves
        ⟨[], [⟨1, "alice", "chal", "RSA", 10, "2024-01-01", false, false⟩], [], []⟩
        1 (some 5)).2 ∧
    Event.attempt "alice" "chal" ∈
      (announce_new_solves
        ⟨[], [⟨1, "alice", "chal", "RSA", 10, "2024-01-01", false, false⟩], [], []⟩
        1 (some 5)).2 :=
  ⟨by decide,
   (C3_marked_implies_attempt_in_dispatch_loop
     ⟨[], [⟨1, "alice", "chal", "RSA", 10, "2024-01-01", false, false⟩], [], []⟩
     1 5 "alice" "chal").1 (by decide)⟩

/-- C3 counterexample: seeding a newly tracked account marks its recorded
solve `announced = true` while its event trace is empty — no notification
dispatch was ever attempted for that solve, so "announced implies a dispatch
attempt occurred" is false. -/
theorem C3_seeding_announces_without_attempt_counterexample :
    (track_user initState 1 "alice" [⟨"RSA Starter 1", "RSA", 10, "2024-01-01"⟩]).2 = [] ∧
    announcedIn
      (track_user initState 1 "alice" [⟨"RSA Starter 1", "RSA", 10, "2024-01-01"⟩]).1
      1 "alice" "RSA Starter 1" = true := by
  refine ⟨rfl, by decide⟩
